import Mathlib

/-!
Shallow embedding of the `a-runtime` repository: a minimal cooperative
scheduling runtime (executor with task table and LIFO ready queue, reactor
with a waker registry, a leaf HTTP-get future, and a hand-compiled
coroutine state machine), together with proofs of its specified
properties.

Sources embedded: `src/runtime/executor.rs`, `src/runtime/reactor.rs`,
`src/http.rs`, `src/main.rs`.
-/

/-- Modelled from the spec: the repository's `future` module (declared as
`mod future;` in `main.rs` but its file is not under `src/`) defines the
two-variant poll result: `NotReady` (no progress observable yet) or
`Ready(value)` (terminal; ownership of `value` transfers to the caller). -/
inductive PollState (T : Type) where
  | NotReady : PollState T
  | Ready (v : T) : PollState T
deriving DecidableEq, Repr

/-- Rust panics that the embedded code can raise: `Option::unwrap` on `None`
(used by `Reactor::deregister` and the coroutine's stack restore) and the
explicit `panic!("Polled a resolved future")` in `Coroutine0::poll`. -/
inductive RtPanic where
  | unwrapNone : RtPanic
  | polledResolved : RtPanic
deriving DecidableEq, Repr

deriving instance DecidableEq for Except

/-! ## Association-list model of `std::collections::HashMap`

Both the executor's task table (`HashMap<usize, RtTask>`) and the reactor's
waker registry (`HashMap<usize, Waker>`) are hash maps keyed by `usize`.
They are embedded as association lists; `hmapInsert` replaces any entry
already present for the key, exactly as `HashMap::insert` does. -/

/-- Association list with `usize` keys, modelling `HashMap<usize, V>`. -/
abbrev HMap (V : Type) : Type := List (Nat × V)

/-- `HashMap::get` / lookup: first entry with the key, if any. -/
def hmapLookup {V : Type} : HMap V → Nat → Option V
  | [], _ => none
  | (k, v) :: m, id => if k = id then some v else hmapLookup m id

/-- Remove every entry for a key (on the well-formed maps built by
`hmapInsert` there is at most one, matching `HashMap::remove`). -/
def hmapErase {V : Type} (m : HMap V) (id : Nat) : HMap V :=
  m.filter (fun p => p.1 ≠ id)

/-- `HashMap::insert`: store `v` under `id`, replacing (and thereby
dropping) any value previously stored under `id`. -/
def hmapInsert {V : Type} (m : HMap V) (id : Nat) (v : V) : HMap V :=
  (id, v) :: hmapErase m id

/-- The keys currently present in the map. -/
def hmapKeys {V : Type} (m : HMap V) : List Nat :=
  m.map Prod.fst

/-- All values stored under a given key (used to state the "at most one
waker per id" invariant). -/
def entriesFor {V : Type} (m : HMap V) (id : Nat) : List V :=
  (m.filter (fun p => p.1 = id)).map Prod.snd

/-- The registry never holds two entries for the same key. -/
def AtMostOne {V : Type} (m : HMap V) : Prop :=
  ∀ k, (entriesFor m k).length ≤ 1

/-! ## Reactor (`src/runtime/reactor.rs`)

The reactor's waker registry is `Wakers = Arc<Mutex<HashMap<usize, Waker>>>`.
The stored `std::task::Waker` values are opaque to the reactor, so the
registry is embedded generically over the waker type `W`.  The mio
`Registry` interactions (`register`/`deregister` against the OS event
source) are external collaborators and are not part of the registry state. -/

/-- `Reactor::set_waker`: adds a `Waker` to the `HashMap` using `id` as the
key; if a `Waker` already exists for `id` it is replaced and the old one is
dropped (`wakers.lock().map(|mut w| w.insert(id, cx.waker().clone()))`). -/
def set_waker {W : Type} (m : HMap W) (id : Nat) (w : W) : HMap W :=
  hmapInsert m id w

/-- `Reactor::deregister`: `wakers.lock().map(|mut w| w.remove(&id).unwrap())`
— removes the `Waker` stored for `id`, panicking (`unwrap` on `None`) when
no waker is registered for `id`.  The subsequent
`registry.deregister(stream)` call is an external mio effect. -/
def deregister {W : Type} (m : HMap W) (id : Nat) : Except RtPanic (HMap W) :=
  match hmapLookup m id with
  | none => .error .unwrapNone
  | some _ => .ok (hmapErase m id)

/-! ## Executor (`src/runtime/executor.rs`)

`ExecutorCore` holds `tasks: RefCell<HashMap<usize, RtTask>>`,
`ready_queue: Arc<Mutex<Vec<usize>>>` and `next_id: Cell<usize>`.
A `RtTask` is `Box<dyn Future<Output = String>>`; through the executor only
its poll behaviour is observable, and `block_on` discards the `Ready`
payload (`PollState::Ready(_) => continue`).  A deterministic top-level
future is therefore embedded by how many `NotReady` polls it performs
before returning `Ready`: `some k` completes after `k` `NotReady` results,
`none` never completes. -/

/-- Abstract top-level task: `some k` returns `NotReady` `k` times and then
`Ready`; `none` always returns `NotReady`. -/
abbrev RtTask : Type := Option Nat

/-- One call to `Future::poll` on a task: the observable result together
with the task's successor behaviour. -/
def taskPoll : RtTask → PollState Unit × RtTask
  | none => (.NotReady, none)
  | some 0 => (.Ready (), some 0)
  | some (k + 1) => (.NotReady, some k)

/-- The executor state: task table, shared ready queue (`Vec<usize>`, the
back of the list is the back of the vector), the `next_id` counter, and a
log recording the id of every task actually polled (in order). -/
structure ExecState where
  tasks : HMap RtTask
  ready : List Nat
  nextId : Nat
  log : List Nat
deriving DecidableEq

/-- `Executor::pop_ready`: pops an id off the back of the `ready_queue`
vector (`q.pop()`), returning the popped id (if any) and the remaining
queue. -/
def popReady (q : List Nat) : Option Nat × List Nat :=
  (q.getLast?, q.dropLast)

/-- `Waker`: carries the task id it is associated with and (in the source)
a handle to the executor thread plus shared ownership of the ready queue.
The thread handle only performs `unpark`, which has no effect on the
queue/table state embedded here. -/
structure Waker where
  id : Nat
deriving DecidableEq

/-- `Waker::wake`: pushes this waker's task id onto the back of the shared
ready queue (`q.push(self.id)`), then unparks the executor thread. -/
def Waker.wake (w : Waker) (q : List Nat) : List Nat :=
  q ++ [w.id]

/-- `spawn`: allocate the current `next_id`, insert the future into the
task table under it, push the id onto the back of the ready queue, and
increment the counter. -/
def spawn (t : RtTask) (s : ExecState) : ExecState :=
  { s with
    tasks := hmapInsert s.tasks s.nextId t
    ready := s.ready ++ [s.nextId]
    nextId := s.nextId + 1 }

/-- One iteration of the inner `while let Some(id) = self.pop_ready()`
loop of `Executor::block_on`: pop an id; if no task is stored under it,
skip (guard against false wakeups); otherwise remove the task from the
table, poll it, and reinsert it on `NotReady` or drop it on `Ready`.
Every actual poll is recorded in `log`. -/
def runStep (s : ExecState) : ExecState :=
  match popReady s.ready with
  | (none, q) => { s with ready := q }
  | (some id, q) =>
    match hmapLookup s.tasks id with
    | none => { s with ready := q }
    | some t =>
      match taskPoll t with
      | (.NotReady, t') =>
        { s with
          tasks := hmapInsert (hmapErase s.tasks id) id t'
          ready := q
          log := s.log ++ [id] }
      | (.Ready _, _) =>
        { s with
          tasks := hmapErase s.tasks id
          ready := q
          log := s.log ++ [id] }

/-- Events interleaved with the executor's loop: an executor loop
iteration, a `Waker::wake` fired from any thread (typically the reactor
thread), or a `spawn` of a new top-level future. -/
inductive ExecAction where
  | step : ExecAction
  | wake (id : Nat) : ExecAction
  | spawnTask (t : RtTask) : ExecAction
deriving DecidableEq

/-- Apply one action to the executor state. -/
def applyAction (s : ExecState) : ExecAction → ExecState
  | .step => runStep s
  | .wake id => { s with ready := Waker.wake ⟨id⟩ s.ready }
  | .spawnTask t => spawn t s

/-- Run a sequence of actions. -/
def runTrace : List ExecAction → ExecState → ExecState
  | [], s => s
  | a :: rest, s => runTrace rest (applyAction s a)

/-! ## Leaf HTTP-get future (`src/http.rs`)

`HttpGetFuture` holds `stream: Option<TcpStream>`, `buffer: Vec<u8>`,
`path: String` and `id: usize`.  Its poll interacts with three external
collaborators: the socket (whose successive `read` outcomes are the input
oracle here), the reactor (register / set_waker / deregister, recorded as
effects), and the request write.  Bytes are `Nat` (values of `u8`). -/

/-- Outcome of one `stream.read(&mut buff)` call: `chunk []` is `Ok(0)`
(peer closed), `chunk bs` with `bs` nonempty is `Ok(n)` delivering those
bytes, `wouldBlock` and `interrupted` are the corresponding `ErrorKind`s,
and `fatal` is any other I/O error. -/
inductive ReadRes where
  | chunk (bs : List Nat) : ReadRes
  | wouldBlock : ReadRes
  | interrupted : ReadRes
  | fatal : ReadRes
deriving DecidableEq

/-- Reactor/socket effects performed by `HttpGetFuture::poll`, in order. -/
inductive HttpEffect where
  | wroteRequest : HttpEffect
  | registered (id : Nat) : HttpEffect
  | setWaker (id : Nat) : HttpEffect
  | deregistered (id : Nat) : HttpEffect
deriving DecidableEq

/-- Result of one poll of the HTTP future: `ready` with the decoded
payload (codepoints), `notReady` (`Poll::Pending`), `panicked` for the
`Err(e) => panic!` arm, or `stuck` when the read oracle is exhausted
before the loop breaks (no real execution reaches it). -/
inductive HttpRes where
  | ready (payload : List Nat) : HttpRes
  | notReady : HttpRes
  | panicked : HttpRes
  | stuck : HttpRes
deriving DecidableEq

/-- The poll-relevant state of `HttpGetFuture`: whether `stream` is
`Some`, the accumulation buffer, and the operation id allocated in
`HttpGetFuture::new` via `reactor().next_id()`. -/
structure HttpGetFuture where
  connected : Bool
  buffer : List Nat
  id : Nat
deriving DecidableEq

/-- Everything one call to `HttpGetFuture::poll` produces: the updated
future state, the reactor effects in order, and the poll result. -/
structure HttpPollOut where
  fut : HttpGetFuture
  effects : List HttpEffect
  result : HttpRes
deriving DecidableEq

/-! `String::from_utf8_lossy` (external `std` collaborator): strict UTF-8
decoding where each maximal valid prefix of an invalid sequence is
replaced by one U+FFFD replacement character, per the WHATWG decoder that
`std` implements. -/

/-- Lowest admissible second byte for a UTF-8 lead byte. -/
def utf8SecondLo (b : Nat) : Nat :=
  if b = 0xE0 then 0xA0 else if b = 0xF0 then 0x90 else 0x80

/-- Highest admissible second byte for a UTF-8 lead byte (excludes
surrogates after `0xED` and codepoints above U+10FFFF after `0xF4`). -/
def utf8SecondHi (b : Nat) : Nat :=
  if b = 0xED then 0x9F else if b = 0xF4 then 0x8F else 0xBF

/-- Sequence length announced by a UTF-8 lead byte; `0` for bytes that can
never start a sequence (continuation bytes, overlong leads `C0`/`C1`, and
`F5`-`FF`). -/
def utf8Len (b : Nat) : Nat :=
  if b ≤ 0x7F then 1
  else if 0xC2 ≤ b ∧ b ≤ 0xDF then 2
  else if 0xE0 ≤ b ∧ b ≤ 0xEF then 3
  else if 0xF0 ≤ b ∧ b ≤ 0xF4 then 4
  else 0

/-- Decode one scalar starting at lead byte `b` with the following bytes
`rest`: returns the codepoint (or U+FFFD) and the total number of input
bytes consumed (at least 1). -/
def utf8Step (b : Nat) (rest : List Nat) : Nat × Nat :=
  let n := utf8Len b
  if n = 1 then (b, 1)
  else if n = 0 then (0xFFFD, 1)
  else
    match rest with
    | [] => (0xFFFD, 1)
    | c1 :: rest1 =>
      if utf8SecondLo b ≤ c1 ∧ c1 ≤ utf8SecondHi b then
        if n = 2 then ((b % 0x20) * 0x40 + c1 % 0x40, 2)
        else
          match rest1 with
          | [] => (0xFFFD, 2)
          | c2 :: rest2 =>
            if 0x80 ≤ c2 ∧ c2 ≤ 0xBF then
              if n = 3 then
                ((b % 0x10) * 0x1000 + (c1 % 0x40) * 0x40 + c2 % 0x40, 3)
              else
                match rest2 with
                | [] => (0xFFFD, 3)
                | c3 :: _ =>
                  if 0x80 ≤ c3 ∧ c3 ≤ 0xBF then
                    ((b % 0x08) * 0x40000 + (c1 % 0x40) * 0x1000 +
                      (c2 % 0x40) * 0x40 + c3 % 0x40, 4)
                  else (0xFFFD, 3)
            else (0xFFFD, 2)
      else (0xFFFD, 1)

/-- Fuel-indexed decoding loop: each produced codepoint consumes at least
one input byte, so fuel equal to the input length always suffices. -/
def utf8LossyAux : Nat → List Nat → List Nat
  | 0, _ => []
  | _, [] => []
  | fuel + 1, b :: rest =>
    let s := utf8Step b rest
    s.1 :: utf8LossyAux fuel (rest.drop (s.2 - 1))

/-- `String::from_utf8_lossy` as a function from bytes to codepoints. -/
def from_utf8_lossy (l : List Nat) : List Nat :=
  utf8LossyAux l.length l

/-- The `loop { match ...read(&mut buff) { ... } }` body of
`HttpGetFuture::poll`, consuming successive read outcomes:
`Ok(0)` decodes the accumulated buffer lossily, deregisters the operation
and breaks `Ready`; `Ok(n)` appends the bytes and continues; `WouldBlock`
re-registers the current waker and breaks `Pending`; `Interrupted`
continues; any other error panics. -/
def readLoop (st : HttpGetFuture) : List ReadRes → HttpPollOut
  | [] => ⟨st, [], .stuck⟩
  | .chunk [] :: _ =>
    ⟨st, [.deregistered st.id], .ready (from_utf8_lossy st.buffer)⟩
  | .chunk (b :: bs) :: rest =>
    let out := readLoop { st with buffer := st.buffer ++ (b :: bs) } rest
    out
  | .wouldBlock :: _ => ⟨st, [.setWaker st.id], .notReady⟩
  | .interrupted :: rest => readLoop st rest
  | .fatal :: _ => ⟨st, [], .panicked⟩

/-- `HttpGetFuture::poll`: when `stream` is `None` (first poll) it first
runs `write_request` (connect non-blocking + synchronous write of the
request), registers read-interest for its id with the reactor, and stores
the current waker; in every case it then enters the read loop. -/
def httpPoll (st : HttpGetFuture) (reads : List ReadRes) : HttpPollOut :=
  if st.connected then readLoop st reads
  else
    let st1 : HttpGetFuture := { st with connected := true }
    let out := readLoop st1 reads
    ⟨out.fut,
      .wroteRequest :: .registered st.id :: .setWaker st.id :: out.effects,
      out.result⟩

/-! ## Coroutine state machine (`src/main.rs`)

`Coroutine0` is the hand-compiled form of `async_main`: a state enum
(`Start`, `Wait1`, `Wait2`, `Resolved`), a stack struct with one saved
slot (`counter: Option<usize>`), and a poll that loops through state
transitions until it breaks with a result.  The held child futures are
observable only through their poll results, supplied here as the oracle
arguments `c1` (what polling the first child returns during this call)
and `c2` (likewise for the second child).  `String` values are embedded
as `List Char`; `String::new()` is `[]`. -/

/-- `State0`: the coroutine's state enum.  The `Wait` variants own their
child future in the source; the child is observable only via its poll
result, so the variants are tags here. -/
inductive State0 where
  | start : State0
  | wait1 : State0
  | wait2 : State0
  | resolved : State0
deriving DecidableEq, Repr

/-- `Stack0`: the saved locals that survive suspension points. -/
structure Stack0 where
  counter : Option Nat
deriving DecidableEq, Repr

/-- `Coroutine0`: saved stack plus current state (`PhantomPinned` has no
runtime content). -/
structure Coroutine0 where
  stack : Stack0
  state : State0
deriving DecidableEq, Repr

/-- Rank of a state in the `Start → Wait1 → Wait2 → Resolved` progression;
every `loop` iteration of `Coroutine0::poll` that does not break moves to
a strictly higher rank. -/
def stateRank : State0 → Nat
  | .start => 0
  | .wait1 => 1
  | .wait2 => 2
  | .resolved => 3

/-- The `State0::Wait2` arm of the poll loop: poll the second child; on
`Ready(txt)` restore (`take().unwrap()`) the counter, bump it, print, set
the state to `Resolved` and break `Ready(String::new())`; on `NotReady`
break `NotReady` leaving state and stack untouched. -/
def pollWait2 (c : Coroutine0) (c2 : PollState (List Char)) :
    Except RtPanic (Coroutine0 × PollState (List Char)) :=
  match c2 with
  | .Ready _txt =>
    match c.stack.counter with
    | none => .error .unwrapNone
    | some _counter => .ok (⟨⟨none⟩, .resolved⟩, .Ready [])
  | .NotReady => .ok (c, .NotReady)

/-- The `State0::Wait1` arm of the poll loop: poll the first child; on
`Ready(txt)` restore the counter, bump it, build the second child future,
move to `Wait2`, re-save the counter, and continue the loop (which polls
the second child in the same call); on `NotReady` break `NotReady`. -/
def pollWait1 (c : Coroutine0) (c1 c2 : PollState (List Char)) :
    Except RtPanic (Coroutine0 × PollState (List Char)) :=
  match c1 with
  | .Ready _txt =>
    match c.stack.counter with
    | none => .error .unwrapNone
    | some counter => pollWait2 ⟨⟨some (counter + 1)⟩, .wait2⟩ c2
  | .NotReady => .ok (c, .NotReady)

/-- `Coroutine0::poll`: the `loop { match this.state { ... } }`.  From
`Start` it initializes the stack slot to `Some(0)`, builds the first child
future, moves to `Wait1` and continues the loop; `Wait1`/`Wait2` run their
arms; `Resolved` panics with "Polled a resolved future". -/
def Coroutine0.poll (c : Coroutine0) (c1 c2 : PollState (List Char)) :
    Except RtPanic (Coroutine0 × PollState (List Char)) :=
  match c.state with
  | .start => pollWait1 ⟨⟨some 0⟩, .wait1⟩ c1 c2
  | .wait1 => pollWait1 c c1 c2
  | .wait2 => pollWait2 c c2
  | .resolved => .error .polledResolved

/-! ## Helper lemmas about the hash-map model -/

theorem hmapLookup_eq_none_of_not_mem {V : Type} (m : HMap V) (id : Nat)
    (h : id ∉ hmapKeys m) : hmapLookup m id = none := by
  induction m with
  | nil => rfl
  | cons hd tl ih =>
    obtain ⟨k, v⟩ := hd
    simp only [hmapKeys, List.map_cons, List.mem_cons] at h
    push_neg at h
    simp only [hmapLookup]
    rw [if_neg (fun hk => h.1 hk.symm)]
    exact ih h.2

theorem mem_keys_of_lookup {V : Type} (m : HMap V) (id : Nat) (t : V)
    (h : hmapLookup m id = some t) : id ∈ hmapKeys m := by
  by_contra hc
  rw [hmapLookup_eq_none_of_not_mem m id hc] at h
  exact Option.noConfusion h

theorem mem_keys_erase {V : Type} (m : HMap V) (id j : Nat)
    (h : j ∈ hmapKeys (hmapErase m id)) : j ∈ hmapKeys m := by
  simp only [hmapKeys, hmapErase, List.mem_map, List.mem_filter] at h ⊢
  obtain ⟨p, ⟨hp, _⟩, rfl⟩ := h
  exact ⟨p, hp, rfl⟩

theorem mem_keys_insert {V : Type} (m : HMap V) (id : Nat) (v : V) (j : Nat)
    (h : j ∈ hmapKeys (hmapInsert m id v)) : j = id ∨ j ∈ hmapKeys m := by
  simp only [hmapKeys, hmapInsert, List.map_cons, List.mem_cons] at h
  rcases h with h | h
  · exact Or.inl h
  · exact Or.inr (mem_keys_erase m id j (by simpa [hmapKeys] using h))

theorem hmapLookup_erase_self {W : Type} (m : HMap W) (id : Nat) :
    hmapLookup (hmapErase m id) id = none := by
  induction m with
  | nil => rfl
  | cons hd tl ih =>
    obtain ⟨a, w⟩ := hd
    by_cases ha : a = id
    · simpa [hmapErase, List.filter_cons, ha] using ih
    · simpa [hmapErase, List.filter_cons, ha, hmapLookup] using ih

theorem entriesFor_erase {W : Type} (m : HMap W) (id k : Nat) :
    entriesFor (hmapErase m id) k = if k = id then [] else entriesFor m k := by
  induction m with
  | nil => simp [entriesFor, hmapErase]
  | cons hd tl ih =>
    obtain ⟨a, w⟩ := hd
    by_cases hki : k = id
    · subst hki
      simp only [if_pos rfl] at ih ⊢
      by_cases hak : a = k
      · subst hak
        simp [entriesFor, hmapErase, List.filter_cons]
      · simp [entriesFor, hmapErase, List.filter_cons, hak]
    · simp only [if_neg hki] at ih ⊢
      by_cases hai : a = id
      · subst hai
        have hak : ¬ a = k := fun h => hki h.symm
        simpa [entriesFor, hmapErase, List.filter_cons, hak] using ih
      · by_cases hak : a = k
        · subst hak
          simpa [entriesFor, hmapErase, List.filter_cons, hai] using ih
        · simpa [entriesFor, hmapErase, List.filter_cons, hai, hak] using ih

theorem entriesFor_insert_self {W : Type} (m : HMap W) (id : Nat) (w : W) :
    entriesFor (hmapInsert m id w) id = [w] := by
  have h := entriesFor_erase m id id
  rw [if_pos rfl] at h
  simpa [entriesFor, hmapInsert, List.filter_cons] using h

theorem entriesFor_insert_ne {W : Type} (m : HMap W) (id k : Nat) (w : W)
    (hk : k ≠ id) :
    entriesFor (hmapInsert m id w) k = entriesFor m k := by
  have h := entriesFor_erase m id k
  rw [if_neg hk] at h
  have hik : ¬ id = k := fun hh => hk hh.symm
  simpa [entriesFor, hmapInsert, List.filter_cons, hik] using h

/-! ## Helper lemmas about the executor loop -/

theorem runStep_pop_none (s : ExecState) (q : List Nat)
    (hp : popReady s.ready = (none, q)) : runStep s = { s with ready := q } := by
  unfold runStep
  simp only [hp]

theorem runStep_spurious (s : ExecState) (id : Nat) (q : List Nat)
    (hp : popReady s.ready = (some id, q)) (hl : hmapLookup s.tasks id = none) :
    runStep s = { s with ready := q } := by
  unfold runStep
  simp only [hp, hl]

theorem runStep_notReady (s : ExecState) (id : Nat) (q : List Nat) (t t' : RtTask)
    (hp : popReady s.ready = (some id, q)) (hl : hmapLookup s.tasks id = some t)
    (ht : taskPoll t = (.NotReady, t')) :
    runStep s = { s with tasks := hmapInsert (hmapErase s.tasks id) id t',
                         ready := q, log := s.log ++ [id] } := by
  unfold runStep
  simp only [hp, hl, ht]

theorem runStep_taskReady (s : ExecState) (id : Nat) (q : List Nat) (t t' : RtTask)
    (hp : popReady s.ready = (some id, q)) (hl : hmapLookup s.tasks id = some t)
    (ht : taskPoll t = (.Ready (), t')) :
    runStep s = { s with tasks := hmapErase s.tasks id,
                         ready := q, log := s.log ++ [id] } := by
  unfold runStep
  simp only [hp, hl, ht]

theorem keys_runStep (s : ExecState) (j : Nat)
    (h : j ∈ hmapKeys (runStep s).tasks) : j ∈ hmapKeys s.tasks := by
  rcases hp : popReady s.ready with ⟨o, q⟩
  cases o with
  | none => rw [runStep_pop_none s q hp] at h; exact h
  | some id =>
    cases hl : hmapLookup s.tasks id with
    | none => rw [runStep_spurious s id q hp hl] at h; exact h
    | some t =>
      rcases ht : taskPoll t with ⟨ps, t'⟩
      cases ps with
      | NotReady =>
        rw [runStep_notReady s id q t t' hp hl ht] at h
        simp only at h
        rcases mem_keys_insert _ _ _ _ h with rfl | h
        · exact mem_keys_of_lookup _ _ _ hl
        · exact mem_keys_erase _ _ _ h
      | Ready v =>
        rw [runStep_taskReady s id q t t' hp hl ht] at h
        simp only at h
        exact mem_keys_erase _ _ _ h

theorem log_runStep (s : ExecState) (j : Nat)
    (h : j ∈ (runStep s).log) : j ∈ s.log ∨ j ∈ hmapKeys s.tasks := by
  rcases hp : popReady s.ready with ⟨o, q⟩
  cases o with
  | none => rw [runStep_pop_none s q hp] at h; exact Or.inl h
  | some id =>
    cases hl : hmapLookup s.tasks id with
    | none => rw [runStep_spurious s id q hp hl] at h; exact Or.inl h
    | some t =>
      rcases ht : taskPoll t with ⟨ps, t'⟩
      cases ps with
      | NotReady =>
        rw [runStep_notReady s id q t t' hp hl ht] at h
        simp only [List.mem_append, List.mem_singleton] at h
        rcases h with h | rfl
        · exact Or.inl h
        · exact Or.inr (mem_keys_of_lookup _ _ _ hl)
      | Ready v =>
        rw [runStep_taskReady s id q t t' hp hl ht] at h
        simp only [List.mem_append, List.mem_singleton] at h
        rcases h with h | rfl
        · exact Or.inl h
        · exact Or.inr (mem_keys_of_lookup _ _ _ hl)

theorem nextId_runStep (s : ExecState) : (runStep s).nextId = s.nextId := by
  rcases hp : popReady s.ready with ⟨o, q⟩
  cases o with
  | none => rw [runStep_pop_none s q hp]
  | some id =>
    cases hl : hmapLookup s.tasks id with
    | none => rw [runStep_spurious s id q hp hl]
    | some t =>
      rcases ht : taskPoll t with ⟨ps, t'⟩
      cases ps with
      | NotReady => rw [runStep_notReady s id q t t' hp hl ht]
      | Ready v => rw [runStep_taskReady s id q t t' hp hl ht]

theorem keys_applyAction (s : ExecState) (a : ExecAction) (j : Nat)
    (hn : j < s.nextId) (h : j ∈ hmapKeys (applyAction s a).tasks) :
    j ∈ hmapKeys s.tasks := by
  cases a with
  | step => exact keys_runStep s j h
  | wake id => exact h
  | spawnTask t =>
    simp only [applyAction, spawn] at h
    rcases mem_keys_insert _ _ _ _ h with rfl | h
    · exact absurd hn (lt_irrefl _)
    · exact h

theorem nextId_applyAction (s : ExecState) (a : ExecAction) :
    s.nextId ≤ (applyAction s a).nextId := by
  cases a with
  | step => rw [applyAction, nextId_runStep]
  | wake id => exact le_refl _
  | spawnTask t => exact Nat.le_succ _

theorem log_applyAction (s : ExecState) (a : ExecAction) (j : Nat)
    (h : j ∈ (applyAction s a).log) : j ∈ s.log ∨ j ∈ hmapKeys s.tasks := by
  cases a with
  | step => exact log_runStep s j h
  | wake id => exact Or.inl h
  | spawnTask t => exact Or.inl h

theorem log_runTrace : ∀ (acts : List ExecAction) (s : ExecState) (id : Nat),
    id < s.nextId → id ∉ hmapKeys s.tasks →
    id ∈ (runTrace acts s).log → id ∈ s.log
  | [], _, _, _, _, hj => hj
  | a :: rest, s, id, hn, hk, hj =>
    have hn' : id < (applyAction s a).nextId :=
      lt_of_lt_of_le hn (nextId_applyAction s a)
    have hk' : id ∉ hmapKeys (applyAction s a).tasks := fun hmem =>
      hk (keys_applyAction s a id hn hmem)
    have h1 : id ∈ (applyAction s a).log :=
      log_runTrace rest (applyAction s a) id hn' hk' hj
    match log_applyAction s a id h1 with
    | Or.inl h => h
    | Or.inr h => absurd h hk

/-! ## The claims -/

/-- Claim C1: for every task managed by the executor, `poll` is never
called after that task has returned `Ready`.  Conjunct 1: when the polled
task returns `Ready`, `block_on` leaves it out of the task table (it was
removed before the poll and is dropped, not reinserted).  Conjunct 2: when
it returns `NotReady`, it is reinserted.  Conjunct 3: once a task id is
absent from the table (and below the id allocator, as every completed id
is), no interleaving of executor steps, wakes and spawns ever polls that
id again — its polls in the log are only the ones already logged. -/
theorem exec_never_polls_completed_task :
    (∀ (s : ExecState) (id : Nat) (q : List Nat) (t : RtTask),
        popReady s.ready = (some id, q) →
        hmapLookup s.tasks id = some t →
        (taskPoll t).1 = PollState.Ready () →
        (runStep s).tasks = hmapErase s.tasks id ∧
        id ∉ hmapKeys (runStep s).tasks ∧
        (runStep s).log = s.log ++ [id]) ∧
    (∀ (s : ExecState) (id : Nat) (q : List Nat) (t : RtTask),
        popReady s.ready = (some id, q) →
        hmapLookup s.tasks id = some t →
        (taskPoll t).1 = PollState.NotReady →
        (runStep s).tasks = hmapInsert (hmapErase s.tasks id) id (taskPoll t).2 ∧
        (runStep s).log = s.log ++ [id]) ∧
    (∀ (s : ExecState) (id : Nat), id < s.nextId → id ∉ hmapKeys s.tasks →
        ∀ (acts : List ExecAction) (j : Nat),
          j ∈ (runTrace acts s).log → j = id → j ∈ s.log) := by
  refine ⟨?_, ?_, ?_⟩
  · intro s id q t hp hl ht
    have htp : taskPoll t = (.Ready (), (taskPoll t).2) := by
      rcases h : taskPoll t with ⟨ps, t'⟩
      rw [h] at ht
      simp at ht
      rw [ht]
    rw [runStep_taskReady s id q t (taskPoll t).2 hp hl htp]
    refine ⟨rfl, ?_, rfl⟩
    intro hmem
    simp only [hmapKeys, hmapErase, List.mem_map, List.mem_filter] at hmem
    obtain ⟨p, ⟨_, hne⟩, rfl⟩ := hmem
    simp at hne
  · intro s id q t hp hl ht
    have htp : taskPoll t = (.NotReady, (taskPoll t).2) := by
      rcases h : taskPoll t with ⟨ps, t'⟩
      rw [h] at ht
      simp at ht
      rw [ht]
    rw [runStep_notReady s id q t (taskPoll t).2 hp hl htp]
    exact ⟨rfl, rfl⟩
  · intro s id hn hk acts j hj hid
    subst hid
    exact log_runTrace acts s j hn hk hj

theorem exec_never_polls_completed_task_witness :
    ((runStep ⟨[(0, some 0)], [0], 1, []⟩).tasks = hmapErase [(0, some 0)] 0 ∧
      0 ∉ hmapKeys (runStep ⟨[(0, some 0)], [0], 1, []⟩).tasks ∧
      (runStep ⟨[(0, some 0)], [0], 1, []⟩).log = [] ++ [0]) ∧
    (0 : Nat) ∈ ([0] : List Nat) := by
  refine ⟨?_, ?_⟩
  · exact exec_never_polls_completed_task.1 ⟨[(0, some 0)], [0], 1, []⟩ 0 [] (some 0)
      (by decide) (by decide) (by decide)
  · exact exec_never_polls_completed_task.2.2 ⟨[(1, some 1)], [0, 1], 2, [0]⟩ 0
      (by decide) (by decide) [ExecAction.step, ExecAction.step] 0 (by decide) rfl

/-- Claim C2, counterexample: on the very first poll (no connection open),
if the first read already returns zero bytes, `HttpGetFuture::poll` falls
through into the read loop and returns `Ready` — not `NotReady` as the
claim states — because the first-poll branch does not return early. -/
theorem http_first_poll_counterexample :
    (httpPoll ⟨false, [], 7⟩ [ReadRes.chunk []]).effects =
      [HttpEffect.wroteRequest, HttpEffect.registered 7, HttpEffect.setWaker 7,
        HttpEffect.deregistered 7] ∧
    (httpPoll ⟨false, [], 7⟩ [ReadRes.chunk []]).result = HttpRes.ready [] ∧
    (httpPoll ⟨false, [], 7⟩ [ReadRes.chunk []]).result ≠ HttpRes.notReady := by
  decide

/-- Claim C2, amended: on the first poll of the leaf HTTP-get future the
code opens a non-blocking connection, writes the outbound request
synchronously, registers read-interest under its OperationId and stores
the current Waker — and then proceeds directly into the read loop, whose
outcome decides the poll result; in particular, when the first read
reports would-block (the typical case) the poll stores the waker again
and returns `NotReady`. -/
theorem http_first_poll_behavior :
    (∀ (st : HttpGetFuture) (reads : List ReadRes), st.connected = false →
        httpPoll st reads =
          ⟨(readLoop { st with connected := true } reads).fut,
            HttpEffect.wroteRequest :: HttpEffect.registered st.id ::
              HttpEffect.setWaker st.id ::
              (readLoop { st with connected := true } reads).effects,
            (readLoop { st with connected := true } reads).result⟩) ∧
    (∀ (st : HttpGetFuture) (reads : List ReadRes), st.connected = false →
        httpPoll st (ReadRes.wouldBlock :: reads) =
          ⟨{ st with connected := true },
            [HttpEffect.wroteRequest, HttpEffect.registered st.id,
              HttpEffect.setWaker st.id, HttpEffect.setWaker st.id],
            HttpRes.notReady⟩) := by
  constructor
  · intro st reads h
    simp [httpPoll, h]
  · intro st reads h
    simp [httpPoll, h, readLoop]

theorem http_first_poll_behavior_witness :
    (httpPoll ⟨false, [], 7⟩ [ReadRes.chunk []] =
      ⟨(readLoop ⟨true, [], 7⟩ [ReadRes.chunk []]).fut,
        HttpEffect.wroteRequest :: HttpEffect.registered 7 :: HttpEffect.setWaker 7 ::
          (readLoop ⟨true, [], 7⟩ [ReadRes.chunk []]).effects,
        (readLoop ⟨true, [], 7⟩ [ReadRes.chunk []]).result⟩) ∧
    (httpPoll ⟨false, [], 7⟩ [ReadRes.wouldBlock] =
      ⟨⟨true, [], 7⟩,
        [HttpEffect.wroteRequest, HttpEffect.registered 7, HttpEffect.setWaker 7,
          HttpEffect.setWaker 7],
        HttpRes.notReady⟩) :=
  ⟨http_first_poll_behavior.1 ⟨false, [], 7⟩ [ReadRes.chunk []] rfl,
   http_first_poll_behavior.2 ⟨false, [], 7⟩ [] rfl⟩

/-- Claim C3: on every poll with the connection open, the read loop of
`HttpGetFuture::poll` behaves as specified: a zero-byte read lossily
decodes the accumulated buffer, deregisters the operation and returns
`Ready` with that text; a nonempty read appends the bytes and keeps
reading without returning; would-block re-registers the current waker and
returns `NotReady`; interrupted retries immediately; any other I/O error
panics. -/
theorem http_read_loop_behavior :
    (∀ (st : HttpGetFuture) (rest : List ReadRes), st.connected = true →
        httpPoll st (ReadRes.chunk [] :: rest) =
          ⟨st, [HttpEffect.deregistered st.id],
            HttpRes.ready (from_utf8_lossy st.buffer)⟩) ∧
    (∀ (st : HttpGetFuture) (bs : List Nat) (rest : List ReadRes),
        st.connected = true → bs ≠ [] →
        httpPoll st (ReadRes.chunk bs :: rest) =
          httpPoll { st with buffer := st.buffer ++ bs } rest) ∧
    (∀ (st : HttpGetFuture) (rest : List ReadRes), st.connected = true →
        httpPoll st (ReadRes.wouldBlock :: rest) =
          ⟨st, [HttpEffect.setWaker st.id], HttpRes.notReady⟩) ∧
    (∀ (st : HttpGetFuture) (rest : List ReadRes), st.connected = true →
        httpPoll st (ReadRes.interrupted :: rest) = httpPoll st rest) ∧
    (∀ (st : HttpGetFuture) (rest : List ReadRes), st.connected = true →
        httpPoll st (ReadRes.fatal :: rest) = ⟨st, [], HttpRes.panicked⟩) := by
  refine ⟨?_, ?_, ?_, ?_, ?_⟩
  · intro st rest h
    simp [httpPoll, h, readLoop]
  · intro st bs rest h hbs
    cases bs with
    | nil => exact absurd rfl hbs
    | cons b bs' => simp [httpPoll, h, readLoop]
  · intro st rest h
    simp [httpPoll, h, readLoop]
  · intro st rest h
    simp [httpPoll, h, readLoop]
  · intro st rest h
    simp [httpPoll, h, readLoop]

theorem http_read_loop_behavior_witness :
    (httpPoll ⟨true, [104], 7⟩ [ReadRes.chunk []] =
      ⟨⟨true, [104], 7⟩, [HttpEffect.deregistered 7],
        HttpRes.ready (from_utf8_lossy [104])⟩) ∧
    (httpPoll ⟨true, [104], 7⟩ [ReadRes.chunk [105], ReadRes.chunk []] =
      httpPoll ⟨true, [104, 105], 7⟩ [ReadRes.chunk []]) ∧
    (httpPoll ⟨true, [], 7⟩ [ReadRes.wouldBlock] =
      ⟨⟨true, [], 7⟩, [HttpEffect.setWaker 7], HttpRes.notReady⟩) ∧
    (httpPoll ⟨true, [], 7⟩ [ReadRes.interrupted, ReadRes.wouldBlock] =
      httpPoll ⟨true, [], 7⟩ [ReadRes.wouldBlock]) ∧
    (httpPoll ⟨true, [], 7⟩ [ReadRes.fatal] = ⟨⟨true, [], 7⟩, [], HttpRes.panicked⟩) :=
  ⟨http_read_loop_behavior.1 ⟨true, [104], 7⟩ [] rfl,
   http_read_loop_behavior.2.1 ⟨true, [104], 7⟩ [105] [ReadRes.chunk []] rfl (by decide),
   http_read_loop_behavior.2.2.1 ⟨true, [], 7⟩ [] rfl,
   http_read_loop_behavior.2.2.2.1 ⟨true, [], 7⟩ [ReadRes.wouldBlock] rfl,
   http_read_loop_behavior.2.2.2.2 ⟨true, [], 7⟩ [] rfl⟩

/-- Claim C4: the reactor's waker registry holds at most one waker per
OperationId at any instant, and `set_waker` is last-write-wins: after
`set_waker m id w` the entries stored under `id` are exactly `[w]` (the
previous waker is replaced and dropped), other ids are untouched, and the
at-most-one invariant is preserved by both `set_waker` and a successful
`deregister`. -/
theorem set_waker_last_write_wins :
    (∀ (W : Type) (m : HMap W) (id : Nat) (w : W),
        entriesFor (set_waker m id w) id = [w]) ∧
    (∀ (W : Type) (m : HMap W) (id k : Nat) (w : W), k ≠ id →
        entriesFor (set_waker m id w) k = entriesFor m k) ∧
    (∀ (W : Type) (m : HMap W) (id : Nat) (w : W),
        AtMostOne m → AtMostOne (set_waker m id w)) ∧
    (∀ (W : Type) (m m' : HMap W) (id : Nat),
        AtMostOne m → deregister m id = Except.ok m' → AtMostOne m') := by
  refine ⟨?_, ?_, ?_, ?_⟩
  · intro W m id w
    exact entriesFor_insert_self m id w
  · intro W m id k w hk
    exact entriesFor_insert_ne m id k w hk
  · intro W m id w hm k
    by_cases hk : k = id
    · subst hk
      rw [show set_waker m k w = hmapInsert m k w from rfl, entriesFor_insert_self]
      exact le_refl 1
    · rw [show set_waker m id w = hmapInsert m id w from rfl,
         entriesFor_insert_ne m id k w hk]
      exact hm k
  · intro W m m' id hm hd k
    have hm' : m' = hmapErase m id := by
      unfold deregister at hd
      cases hl : hmapLookup m id with
      | none => rw [hl] at hd; exact Except.noConfusion hd
      | some t => rw [hl] at hd; simpa using hd.symm
    subst hm'
    rw [entriesFor_erase]
    by_cases hk : k = id
    · simp [hk]
    · rw [if_neg hk]; exact hm k

theorem set_waker_last_write_wins_witness :
    (entriesFor (set_waker [(1, 10)] 1 20) 1 = [20]) ∧
    (entriesFor (set_waker [(1, 10), (2, 30)] 1 20) 2 = entriesFor [(1, 10), (2, 30)] 2) ∧
    AtMostOne (set_waker [(1, 10)] 1 20) ∧
    AtMostOne ([(2, 30)] : HMap Nat) := by
  refine ⟨?_, ?_, ?_, ?_⟩
  · exact set_waker_last_write_wins.1 Nat [(1, 10)] 1 20
  · exact set_waker_last_write_wins.2.1 Nat [(1, 10), (2, 30)] 1 2 20 (by decide)
  · exact set_waker_last_write_wins.2.2.1 Nat [(1, 10)] 1 20
      (fun k => by
        by_cases h : (1 : Nat) = k <;> simp [entriesFor, List.filter_cons, h])
  · exact set_waker_last_write_wins.2.2.2 Nat [(1, 10), (2, 30)] [(2, 30)] 1
      (fun k => by
        by_cases h1 : (1 : Nat) = k <;> by_cases h2 : (2 : Nat) = k <;>
          [omega; simp [entriesFor, List.filter_cons, h1, h2];
            simp [entriesFor, List.filter_cons, h1, h2];
            simp [entriesFor, List.filter_cons, h1, h2]])
      (by simp [deregister, hmapLookup, hmapErase, List.filter_cons])

/-- Claim C5: every poll of the coroutine state machine either makes
visible progress through at least one state transition or returns
`NotReady` without mutating the coroutine.  Conjuncts 1 and 2: from a
`Wait` state whose awaited child reports `NotReady`, the poll returns
`NotReady` with the state variant and the saved stack slot exactly as
they were.  Conjunct 3: every successful poll from a non-`Resolved` state
either leaves the coroutine untouched returning `NotReady`, or strictly
advances the state rank (no partial or torn transition). -/
theorem coroutine_poll_progress_or_frame :
    (∀ (c : Coroutine0) (c1 c2 : PollState (List Char)),
        c.state = State0.wait1 → c1 = PollState.NotReady →
        Coroutine0.poll c c1 c2 = Except.ok (c, PollState.NotReady)) ∧
    (∀ (c : Coroutine0) (c1 c2 : PollState (List Char)),
        c.state = State0.wait2 → c2 = PollState.NotReady →
        Coroutine0.poll c c1 c2 = Except.ok (c, PollState.NotReady)) ∧
    (∀ (c : Coroutine0) (c1 c2 : PollState (List Char))
        (c' : Coroutine0) (r : PollState (List Char)),
        c.state ≠ State0.resolved →
        Coroutine0.poll c c1 c2 = Except.ok (c', r) →
        (r = PollState.NotReady ∧ c' = c) ∨ stateRank c.state < stateRank c'.state) := by
  refine ⟨?_, ?_, ?_⟩
  · intro c c1 c2 hs h1
    obtain ⟨⟨cnt⟩, st⟩ := c
    simp only at hs
    subst hs h1
    simp [Coroutine0.poll, pollWait1]
  · intro c c1 c2 hs h2
    obtain ⟨⟨cnt⟩, st⟩ := c
    simp only at hs
    subst hs h2
    simp [Coroutine0.poll, pollWait2]
  · intro c c1 c2 c' r hs hp
    obtain ⟨⟨cnt⟩, st⟩ := c
    cases st with
    | start =>
      cases c1 with
      | NotReady =>
        simp [Coroutine0.poll, pollWait1] at hp
        obtain ⟨rfl, rfl⟩ := hp
        right
        simp [stateRank]
      | Ready t1 =>
        cases c2 with
        | NotReady =>
          simp [Coroutine0.poll, pollWait1, pollWait2] at hp
          obtain ⟨rfl, rfl⟩ := hp
          right
          simp [stateRank]
        | Ready t2 =>
          simp [Coroutine0.poll, pollWait1, pollWait2] at hp
          obtain ⟨rfl, rfl⟩ := hp
          right
          simp [stateRank]
    | wait1 =>
      cases c1 with
      | NotReady =>
        simp [Coroutine0.poll, pollWait1] at hp
        obtain ⟨rfl, rfl⟩ := hp
        left
        exact ⟨rfl, rfl⟩
      | Ready t1 =>
        cases cnt with
        | none => simp [Coroutine0.poll, pollWait1] at hp
        | some k =>
          cases c2 with
          | NotReady =>
            simp [Coroutine0.poll, pollWait1, pollWait2] at hp
            obtain ⟨rfl, rfl⟩ := hp
            right
            simp [stateRank]
          | Ready t2 =>
            simp [Coroutine0.poll, pollWait1, pollWait2] at hp
            obtain ⟨rfl, rfl⟩ := hp
            right
            simp [stateRank]
    | wait2 =>
      cases c2 with
      | NotReady =>
        simp [Coroutine0.poll, pollWait2] at hp
        obtain ⟨rfl, rfl⟩ := hp
        left
        exact ⟨rfl, rfl⟩
      | Ready t2 =>
        cases cnt with
        | none => simp [Coroutine0.poll, pollWait2] at hp
        | some k =>
          simp [Coroutine0.poll, pollWait2] at hp
          obtain ⟨rfl, rfl⟩ := hp
          right
          simp [stateRank]
    | resolved => exact absurd rfl hs

theorem coroutine_poll_progress_or_frame_witness :
    (Coroutine0.poll ⟨⟨some 0⟩, State0.wait1⟩ PollState.NotReady PollState.NotReady =
      Except.ok (⟨⟨some 0⟩, State0.wait1⟩, PollState.NotReady)) ∧
    (Coroutine0.poll ⟨⟨some 1⟩, State0.wait2⟩ PollState.NotReady PollState.NotReady =
      Except.ok (⟨⟨some 1⟩, State0.wait2⟩, PollState.NotReady)) ∧
    (((PollState.NotReady : PollState (List Char)) = PollState.NotReady ∧
        (⟨⟨some 0⟩, State0.wait1⟩ : Coroutine0) = ⟨⟨some 0⟩, State0.wait1⟩) ∨
      stateRank State0.wait1 < stateRank State0.wait1) := by
  refine ⟨?_, ?_, ?_⟩
  · exact coroutine_poll_progress_or_frame.1 ⟨⟨some 0⟩, State0.wait1⟩
      PollState.NotReady PollState.NotReady rfl rfl
  · exact coroutine_poll_progress_or_frame.2.1 ⟨⟨some 1⟩, State0.wait2⟩
      PollState.NotReady PollState.NotReady rfl rfl
  · exact coroutine_poll_progress_or_frame.2.2 ⟨⟨some 0⟩, State0.wait1⟩
      PollState.NotReady PollState.NotReady ⟨⟨some 0⟩, State0.wait1⟩
      PollState.NotReady (by decide) (by decide)

/-- Claim C6: polling the coroutine state machine after it has completed
(state `Resolved`) fails loudly with the panic "Polled a resolved future"
for every stack content and every child-poll outcome. -/
theorem resolved_poll_panics (st : Stack0) (c1 c2 : PollState (List Char)) :
    Coroutine0.poll ⟨st, State0.resolved⟩ c1 c2 = Except.error RtPanic.polledResolved :=
  rfl

/-- Claim C7: firing a Waker for a task id that is not in the executor's
task table is a harmless no-op: the wake pushes the id onto the ready
queue, and the next executor step pops it, finds no task, and skips it —
the resulting state is exactly the original state (no poll, no log entry,
no fault). -/
theorem spurious_wake_noop (s : ExecState) (id : Nat)
    (h : id ∉ hmapKeys s.tasks) :
    runStep (applyAction s (ExecAction.wake id)) = { s with ready := s.ready } := by
  have hp : popReady (applyAction s (ExecAction.wake id)).ready = (some id, s.ready) := by
    simp [applyAction, Waker.wake, popReady]
  have hl : hmapLookup (applyAction s (ExecAction.wake id)).tasks id = none := by
    simp only [applyAction]
    exact hmapLookup_eq_none_of_not_mem s.tasks id h
  rw [runStep_spurious _ id s.ready hp hl]
  simp [applyAction]

theorem spurious_wake_noop_witness :
    runStep (applyAction ⟨[(0, some 2)], [0], 1, []⟩ (ExecAction.wake 9)) =
      { tasks := [(0, some 2)], ready := [0], nextId := 1, log := [] } :=
  spurious_wake_noop ⟨[(0, some 2)], [0], 1, []⟩ 9 (by decide)

/-- Claim C8: the ready queue is LIFO — `Waker::wake` and `spawn` push
onto the back of the vector and `pop_ready` pops from the back, so for
any queue state, a pop immediately after a push returns the pushed id and
restores the queue. -/
theorem ready_queue_lifo :
    (∀ (q : List Nat) (w : Waker), popReady (w.wake q) = (some w.id, q)) ∧
    (∀ (t : RtTask) (s : ExecState),
        popReady (spawn t s).ready = (some s.nextId, s.ready)) := by
  constructor
  · intro q w
    simp [popReady, Waker.wake]
  · intro t s
    simp [popReady, spawn]

/-- Claim C9: whenever the hand-compiled coroutine `Coroutine0` returns
`Ready`, the contained value is the empty string (`String::new()`),
regardless of the texts the two awaited HTTP futures produced. -/
theorem coroutine_ready_value_empty :
    ∀ (c : Coroutine0) (c1 c2 : PollState (List Char))
      (c' : Coroutine0) (v : List Char),
      Coroutine0.poll c c1 c2 = Except.ok (c', PollState.Ready v) → v = [] := by
  intro c c1 c2 c' v hp
  obtain ⟨⟨cnt⟩, st⟩ := c
  cases st with
  | start =>
    cases c1 with
    | NotReady => simp [Coroutine0.poll, pollWait1] at hp
    | Ready t1 =>
      cases c2 with
      | NotReady => simp [Coroutine0.poll, pollWait1, pollWait2] at hp
      | Ready t2 =>
        simp [Coroutine0.poll, pollWait1, pollWait2] at hp
        exact hp.2
  | wait1 =>
    cases c1 with
    | NotReady => simp [Coroutine0.poll, pollWait1] at hp
    | Ready t1 =>
      cases cnt with
      | none => simp [Coroutine0.poll, pollWait1] at hp
      | some k =>
        cases c2 with
        | NotReady => simp [Coroutine0.poll, pollWait1, pollWait2] at hp
        | Ready t2 =>
          simp [Coroutine0.poll, pollWait1, pollWait2] at hp
          exact hp.2
  | wait2 =>
    cases c2 with
    | NotReady => simp [Coroutine0.poll, pollWait2] at hp
    | Ready t2 =>
      cases cnt with
      | none => simp [Coroutine0.poll, pollWait2] at hp
      | some k =>
        simp [Coroutine0.poll, pollWait2] at hp
        exact hp.2
  | resolved => simp [Coroutine0.poll] at hp

theorem coroutine_ready_value_empty_witness : ([] : List Char) = [] :=
  coroutine_ready_value_empty ⟨⟨some 0⟩, State0.start⟩
    (PollState.Ready ['A']) (PollState.Ready ['B'])
    ⟨⟨none⟩, State0.resolved⟩ [] (by decide)

/-- Claim C10: calling the reactor's `deregister` for an OperationId with
no currently registered waker panics (the `remove` result is unwrapped):
conjunct 1 for any map where lookup of the id fails, conjunct 2 for the
specific case of a second `deregister` of the same id right after a
successful one. -/
theorem deregister_unregistered_panics :
    (∀ (W : Type) (m : HMap W) (id : Nat), hmapLookup m id = none →
        deregister m id = Except.error RtPanic.unwrapNone) ∧
    (∀ (W : Type) (m m' : HMap W) (id : Nat), deregister m id = Except.ok m' →
        deregister m' id = Except.error RtPanic.unwrapNone) := by
  constructor
  · intro W m id h
    unfold deregister
    rw [h]
  · intro W m m' id hd
    have hm' : m' = hmapErase m id := by
      unfold deregister at hd
      cases hl : hmapLookup m id with
      | none => rw [hl] at hd; exact Except.noConfusion hd
      | some t => rw [hl] at hd; simpa using hd.symm
    subst hm'
    unfold deregister
    rw [hmapLookup_erase_self m id]

theorem deregister_unregistered_panics_witness :
    (deregister ([] : HMap Nat) 0 = Except.error RtPanic.unwrapNone) ∧
    (deregister ([] : HMap Nat) 3 = Except.error RtPanic.unwrapNone) :=
  ⟨deregister_unregistered_panics.1 Nat [] 0 rfl,
   deregister_unregistered_panics.2 Nat [(3, 5)] [] 3 (by decide)⟩
